import Mathlib

/-!
Verification development for the tct-feature-tracker synchronization engine.

The definitions below are a shallow embedding of the Python sources:

* `src/packages/ticketfetchers/ticket_fetcher_optimized.py` (class TicketFetch):
  chunking, retry/backoff, the bulk keyed fetch, the commitment filter, the
  QA-qualification filter, and row building (get_task_details / fetch_tickets).
* `src/packages/help.py` (force_refetch_and_update / balance): the
  reconciliation loop and the two orchestrator entry points.
* `src/packages/database/schema.py` (class Database): the Mongo update is
  modelled as field-level set semantics on JSON-object documents.

Modelling conventions, stated once here:

* Python attributes that the code reads through getattr with a default are
  modelled as Option fields; a missing attribute is none.  Attribute chains
  such as getattr(getattr(f, "status", None), "name", d) are collapsed into a
  single Option String field carrying the effective name, since the code only
  ever observes the chain through that default.
* Machine concurrency (ThreadPoolExecutor / as_completed) is modelled by
  folding chunk results in an arbitrary permutation of the chunk list: the
  completion order of futures is some permutation of the submitted chunks.
* time.sleep is modelled by recording the slept delay (a rational number of
  seconds) in a trace; exceptions are modelled with Except.
* Documents handed to the Mongo wrapper are JSON objects, modelled as
  association lists from field name to value.
-/

namespace TCT

/-! ## String helpers (regex semantics of the three compiled patterns)

The code compiles three case-insensitive regexes:
  re.compile(r"#teams_committed.*?QA", re.IGNORECASE)   (commitment marker)
  re.compile(r"auto", re.IGNORECASE)                    (substring search)
  re.compile(r"tms", re.IGNORECASE)                     (substring search)
For the plain-literal patterns, re.search is substring containment after
lowercasing.  For the marker pattern, re.search succeeds iff the text contains
an occurrence of the literal marker followed by the literal "QA" with no
newline in between (the dot does not match a newline). -/

def lowerStr (s : String) : List Char := s.data.map Char.toLower

/-- Literal match of pat at the head of s. -/
def matchAt : List Char → List Char → Bool
  | [], _ => true
  | _ :: _, [] => false
  | p :: ps, c :: cs => p = c && matchAt ps cs

/-- Case-respecting substring containment (callers lowercase both sides). -/
def hasSub (pat : List Char) : List Char → Bool
  | [] => matchAt pat []
  | c :: cs => matchAt pat (c :: cs) || hasSub pat cs

def markerChars : List Char := "#teams_committed".data

/-- Scan for the literal "qa" with no intervening newline (the lazy dot-star
of the compiled marker pattern cannot cross a newline). -/
def qaTail : List Char → Bool
  | [] => false
  | c :: cs => if matchAt ['q', 'a'] (c :: cs) then true
               else if c = '\n' then false
               else qaTail cs

/-- re.search of the compiled marker pattern on an already lowercased text. -/
def qaCommittedSearch : List Char → Bool
  | [] => false
  | c :: cs =>
      (matchAt markerChars (c :: cs) && qaTail ((c :: cs).drop markerChars.length))
        || qaCommittedSearch cs

/-! ## Data model (tracker records as the code observes them) -/

/-- The triage field customfield_14308 as the filter inspects it: a list, a
bare string, or anything else (None included). -/
inductive Triage where
  | listv (l : List String)
  | strv (s : String)
  | other
deriving DecidableEq, Repr

structure Assignee where
  displayName : Option String
  name : Option String
  accountId : Option String
deriving DecidableEq, Repr

/-- A record reachable through an issue link.  fields is Option: the row
builder probes getattr(linked, "fields", None). -/
structure LinkedIssue where
  key : Option String
  /-- Effective issuetype name through the getattr chain; none when the
  issuetype attribute is absent (the "not is_task" branch). -/
  issuetypeName : Option String
  summary : Option String
  statusName : Option String
  fieldsPresent : Bool
deriving DecidableEq, Repr

structure Link where
  inwardIssue : Option LinkedIssue
  outwardIssue : Option LinkedIssue
  /-- link.raw.get("type", \x7b\x7d).get("inward") -/
  typeInward : Option String
deriving DecidableEq, Repr

structure FFields where
  statusName : Option String
  summary : Option String
  description : Option String
  issuelinks : Option (List Link)
deriving DecidableEq, Repr

/-- A feature record from the top-level search (fields always present on
records the tracker returns). -/
structure Feature where
  key : String
  fields : FFields
deriving DecidableEq, Repr

structure QFields where
  statusName : Option String
  summary : Option String
  assignee : Option Assignee
  labels : Option (List String)
  issuelinks : Option (List Link)
  issuetypeName : Option String
  triage : Triage
deriving DecidableEq, Repr

/-- A candidate child issue from the bulk fetch.  fields is Option so the
fail-closed except branch of the QA filter is representable. -/
structure Issue where
  key : String
  fields : Option QFields
deriving DecidableEq, Repr

/-- The normalized output row built by get_task_details. -/
structure Row where
  id : String
  Feature_status : String
  Feature_summary : String
  QA_task : String
  QA_status : String
  QA_assignee : String
  QA_labels : String
  Auto_task : String
  Auto_status : String
  TMS_task : String
  TMS_status : String
  comments : List String
deriving DecidableEq, Repr

/-! ## Classifier / field extractor -/

/-- Commitment filter: the body of the membership test in
get_qa_committed_tasks (desc = getattr(t.fields, "description", "") or ""). -/
def commitFilter (t : Feature) : Bool :=
  qaCommittedSearch (lowerStr (t.fields.description.getD ""))

/-- get_qa_committed_tasks: keep the features whose description matches. -/
def get_qa_committed_tasks (l : List Feature) : List Feature :=
  l.filter commitFilter

/-- The try-body of _qa_filter once fields is in hand. -/
def qa_filter_core (f : QFields) : Bool :=
  let issuetype_ok := f.issuetypeName.getD "" = "Task"
  let status_name := f.statusName.getD ""
  let triage_ok :=
    match f.triage with
    | .listv (x :: _) => x = "73317"
    | .strv s => s = "73317"
    | _ => false
  issuetype_ok && triage_ok && !(status_name = "Rejected")

/-- _qa_filter: fields absent means the attribute access raises and the
except branch returns False (fail closed). -/
def qa_filter (i : Issue) : Bool :=
  match i.fields with
  | none => false
  | some f => qa_filter_core f

/-- _collect_candidate_linked_keys: keys of linked issues reached through a
link whose inward type label is "Comprised of Task" (empty keys dropped by
the if key: truthiness test). -/
def collect_candidate_linked_keys (ft : Feature) : List String :=
  (ft.fields.issuelinks.getD []).filterMap (fun link =>
    match link.inwardIssue, link.outwardIssue with
    | none, none => none
    | li, lo =>
        let linked := match li with | some x => some x | none => lo
        match linked with
        | none => none
        | some l =>
            if link.typeInward = some "Comprised of Task" then
              match l.key with
              | some k => if k = "" then none else some k
              | none => none
            else none)

/-- Python x or "NA" on an optional string (None and "" are falsy). -/
def orNA (o : Option String) : String :=
  match o with
  | some s => if s = "" then "NA" else s
  | none => "NA"

/-- Python a or b on optional strings ("" is falsy). -/
def pyOrStr (a b : Option String) : Option String :=
  match a with
  | some s => if s = "" then b else some s
  | none => b

def autoPat : List Char := "auto".data
def tmsPat : List Char := "tms".data

/-- The Auto-classification if statement of the link scan inside
get_task_details. -/
def scanAuto (key : Option String) (summary status_name : String) (r : Row) : Row :=
  if summary ≠ "" ∧ hasSub autoPat (lowerStr summary) = true ∧ r.Auto_task = "NA" then
    { r with Auto_task := orNA key,
             Auto_status := if status_name = "" then "NA" else status_name }
  else r

/-- The TMS-classification if statement of the link scan inside
get_task_details. -/
def scanTms (key : Option String) (summary status_name : String) (r : Row) : Row :=
  if summary ≠ "" ∧ hasSub tmsPat (lowerStr summary) = true ∧ r.TMS_task = "NA" then
    { r with TMS_task := orNA key,
             TMS_status := if status_name = "" then "NA" else status_name }
  else r

/-- One side (inwardIssue or outwardIssue) of the Auto/TMS link scan inside
get_task_details: skip unless the linked record is a readable Task, then run
the Auto and TMS classification statements in order on the same row. -/
def scanSide (r : Row) (side : Option LinkedIssue) : Row :=
  match side with
  | none => r
  | some linked =>
      if !linked.fieldsPresent then r
      else if ¬ linked.issuetypeName = some "Task" then r
      else
        let summary := linked.summary.getD ""
        let status_name := linked.statusName.getD "NA"
        scanTms linked.key summary status_name
          (scanAuto linked.key summary status_name r)

/-- One issuelink of the scan: the inward side, then (unless the break fired
because both slots are filled) the outward side. -/
def scanLink (r : Row) (l : Link) : Row :=
  let r1 := scanSide r l.inwardIssue
  if r1.Auto_task ≠ "NA" ∧ r1.TMS_task ≠ "NA" then r1
  else scanSide r1 l.outwardIssue

/-- get_task_details.  The qa argument carries the key and the fields of the
QA task; callers only pass issues accepted by qa_filter, which guarantees the
fields attribute is present. -/
def get_task_details (ft : Feature) (qa : Option (String × QFields)) : Row :=
  let row0 : Row :=
    { id := match qa with
            | some (k, _) => ft.key ++ "|" ++ k
            | none => ft.key,
      Feature_status := ft.fields.statusName.getD "NA",
      Feature_summary := ft.fields.summary.getD "NA",
      QA_task := "NA", QA_status := "NA", QA_assignee := "NA", QA_labels := "NA",
      Auto_task := "NA", Auto_status := "NA", TMS_task := "NA", TMS_status := "NA",
      comments := [] }
  match qa with
  | none => row0
  | some (qaKey, f) =>
      let row1 := { row0 with QA_task := qaKey, QA_status := f.statusName.getD "NA" }
      let row2 :=
        match f.assignee with
        | none => row1
        | some a =>
            let display := pyOrStr a.displayName (pyOrStr a.name a.accountId)
            { row1 with QA_assignee := orNA display }
      let labs := f.labels.getD []
      let row3 :=
        if labs.isEmpty then row2
        else { row2 with QA_labels := String.intercalate ", " labs }
      (f.issuelinks.getD []).foldl scanLink row3

/-- Whether candidate key k resolves in the bulk map to an issue passing the
QA filter (the guard of the row-appending branch of fetch_tickets). -/
def qualifiesB (mp : String → Option Issue) (k : String) : Bool :=
  match mp k with
  | some qa => qa_filter qa
  | none => false

/-- One iteration of the inner for k in keys loop of fetch_tickets: the row
appended when the candidate resolves and passes the QA filter. -/
def rowForKey (ft : Feature) (mp : String → Option Issue) (k : String) :
    Option Row :=
  match mp k with
  | some qa =>
      match qa.fields with
      | some f =>
          if qa_filter_core f then some (get_task_details ft (some (qa.key, f)))
          else none
      | none => none
  | none => none

/-- The per-feature part of step 5 of fetch_tickets: one row per qualifying
candidate key, or a single NA row when none qualifies (qa_added = False). -/
def buildFeatureRows (ft : Feature) (keys : List String)
    (mp : String → Option Issue) : List Row :=
  let qaRows := keys.filterMap (rowForKey ft mp)
  if qaRows.isEmpty then [get_task_details ft none] else qaRows

/-- Steps 2 and 5 of fetch_tickets given the bulk map of candidate issues:
filter committed features, then build rows per feature from its candidate
linked keys. -/
def fetch_tickets_rows (features : List Feature)
    (mp : String → Option Issue) : List Row :=
  (get_qa_committed_tasks features).flatMap
    (fun ft => buildFeatureRows ft (collect_candidate_linked_keys ft) mp)

/-! ## Bulk issue fetcher

Tunables of the class (the constants the claims mention). -/

def MAX_RESULTS : Nat := 1000
def CHUNK_SIZE : Nat := 100
def MAX_WORKERS : Nat := 6
def BACKOFF_BASE_SEC : ℚ := 3 / 2
def BACKOFF_MAX_RETRIES : Nat := 4

/-- _chunked: accumulate items, emitting a chunk whenever the accumulator
reaches size, plus a final partial chunk. -/
def chunkedAux (size : Nat) (acc : List String) : List String → List (List String)
  | [] => if acc.isEmpty then [] else [acc.reverse]
  | x :: xs =>
      let acc' := x :: acc
      if size ≤ acc'.length then acc'.reverse :: chunkedAux size [] xs
      else chunkedAux size acc' xs

def chunked (l : List String) (size : Nat) : List (List String) :=
  chunkedAux size [] l

/-- key_to_issue[issue.key] = issue, for one fetched issue. -/
def mergeIssue (m : String → Option Issue) (i : Issue) : String → Option Issue :=
  fun k => if k = i.key then some i else m k

/-- Merging the issue list of one completed chunk into the mapping. -/
def mergeChunkResults (m : String → Option Issue) (issues : List Issue) :
    String → Option Issue :=
  issues.foldl mergeIssue m

/-- The records a chunk query returns against a fixed backend mapping:
identifiers that do not resolve are simply absent. -/
def fetchChunkIssues (backend : String → Option Issue) (chunk : List String) :
    List Issue :=
  chunk.filterMap backend

/-- The merge phase of _bulk_fetch_issues_by_keys over a given chunk order.
The sequential dispatch path processes the chunks in list order; the threaded
path merges them in as_completed order, an arbitrary permutation. -/
def bulkFromChunks (backend : String → Option Issue)
    (chunks : List (List String)) : String → Option Issue :=
  chunks.foldl (fun m c => mergeChunkResults m (fetchChunkIssues backend c))
    (fun _ => none)

/-- _bulk_fetch_issues_by_keys on an already deduplicated, empty-free key
list, sequential dispatch order. -/
def bulk_fetch_issues_by_keys (backend : String → Option Issue)
    (keys : List String) : String → Option Issue :=
  bulkFromChunks backend (chunked keys CHUNK_SIZE)

/-! ## Retry with exponential backoff (_search_issues_with_backoff)

The error taxonomy of the spec: transient versus permanent failures. -/

inductive FetchErr where
  | transient (code : Nat)
  | permanent (code : Nat)
deriving DecidableEq, Repr

/-- Observable behaviour of one call to _search_issues_with_backoff: the
returned value or re-raised error, how many attempts were made, and the
sequence of backoff delays slept (in seconds). -/
structure BackoffTrace (R : Type) where
  result : Except FetchErr R
  attempts : Nat
  sleeps : List ℚ
deriving Repr

/-- The retry loop: for attempt in range(BACKOFF_MAX_RETRIES + 1), with the
call outcome at each attempt given by the call function.  On failure at the
last attempt the error is re-raised; otherwise the loop sleeps delay and
doubles it. -/
def backoffAux {R : Type} (call : Nat → Except FetchErr R)
    (attempt : Nat) (delay : ℚ) : BackoffTrace R :=
  match call attempt with
  | .ok r => ⟨.ok r, attempt + 1, []⟩
  | .error e =>
      if BACKOFF_MAX_RETRIES ≤ attempt then ⟨.error e, attempt + 1, []⟩
      else
        let t := backoffAux call (attempt + 1) (delay * 2)
        ⟨t.result, t.attempts, delay :: t.sleeps⟩
termination_by BACKOFF_MAX_RETRIES + 1 - attempt
decreasing_by omega

def search_issues_with_backoff {R : Type} (call : Nat → Except FetchErr R) :
    BackoffTrace R :=
  backoffAux call 0 BACKOFF_BASE_SEC

/-- One chunk lookup of the bulk fetch, through the retry wrapper: only the
final result is observed by the caller. -/
def fetchChunkE (callChunk : List String → Nat → Except FetchErr (List Issue))
    (chunk : List String) : Except FetchErr (List Issue) :=
  (search_issues_with_backoff (callChunk chunk)).result

/-- _bulk_fetch_issues_by_keys with failures visible: a chunk whose lookup
ultimately fails makes the whole fetch fail (the exception propagates out of
fut.result() or the sequential loop); no partial mapping is returned. -/
def bulk_fetch_issues_by_keys_exc
    (callChunk : List String → Nat → Except FetchErr (List Issue))
    (keys : List String) : Except FetchErr (String → Option Issue) :=
  if keys.isEmpty then .ok (fun _ => none)
  else
    (chunked keys CHUNK_SIZE).foldlM
      (fun m c => (fetchChunkE callChunk c).map (fun issues => mergeChunkResults m issues))
      (fun _ => none)

/-! ## Document store and reconciliation (schema.py and help.py)

Documents are JSON objects: association lists from field name to value.  The
values occurring in rows are strings, lists of strings (comments, labels) and
null, which suffices for the reconciliation claims. -/

inductive Value where
  | vstr (s : String)
  | vlistStr (l : List String)
  | vnull
deriving DecidableEq, Repr

abbrev Doc := List (String × Value)

/-- Python dict get / Mongo field read: first binding of the key. -/
def dGet (d : Doc) (k : String) : Option Value :=
  match d with
  | [] => none
  | (k', v) :: rest => if k' = k then some v else dGet rest k

/-- One field assignment of a Mongo dollar-set: overwrite the binding when
present, append otherwise. -/
def setField (d : Doc) (k : String) (v : Value) : Doc :=
  match d with
  | [] => [(k, v)]
  | (k', v') :: rest => if k' = k then (k, v) :: rest else (k', v') :: setField rest k v

/-- Database.update: update_one with a dollar-set of the payload fields, a
field-level merge rather than a document replace. -/
def setFields (d : Doc) (ps : List (String × Value)) : Doc :=
  ps.foldl (fun acc p => setField acc p.1 p.2) d

/-- The ten keys of the update_data payload built in force_refetch_and_update. -/
def tenFields : List String :=
  ["Feature_status", "Feature_summary", "QA_task", "QA_status", "QA_assignee",
   "QA_labels", "Auto_task", "Auto_status", "TMS_task", "TMS_status"]

/-- update_data: ticket.get(k) for each of the ten fields (a missing key
becomes None, which the dollar-set stores as null). -/
def updatePayload (t : Doc) : List (String × Value) :=
  tenFields.map (fun k => (k, (dGet t k).getD .vnull))

/-- Python truthiness of a JSON value (the if not ticket_id test). -/
def vFalsy : Value → Bool
  | .vstr s => s = ""
  | .vlistStr l => l.isEmpty
  | .vnull => true

/-- Database.find: find_one on _id. -/
def findById (db : List Doc) (idv : Value) : Option Doc :=
  db.find? (fun d => dGet d "_id" = some idv)

/-- Mongo update_one on _id: rewrite the first matching document. -/
def updateById (db : List Doc) (idv : Value) (ps : List (String × Value)) :
    List Doc :=
  match db with
  | [] => []
  | d :: rest =>
      if dGet d "_id" = some idv then setFields d ps :: rest
      else d :: updateById rest idv ps

/-- Behaviour of the external effects while one ticket is processed: whether
some statement in the try block raises, the truthiness of the db.update
result and the acknowledged flag of db.insert. -/
structure TEnv where
  raisesExc : Bool
  updateTruthy : Bool
  insertAck : Bool
deriving DecidableEq, Repr

/-- The mutable state of the reconciliation loop of force_refetch_and_update. -/
structure RState where
  db : List Doc
  updated : Nat
  inserted : Nat
  errors : Nat
deriving DecidableEq, Repr

/-- One iteration of the for ticket in tickets loop. -/
def reconcileStep (st : RState) (p : Doc × TEnv) : RState :=
  let (t, env) := p
  if env.raisesExc then { st with errors := st.errors + 1 }
  else
    match dGet t "_id" with
    | none => st
    | some idv =>
        if vFalsy idv then st
        else
          match findById st.db idv with
          | some _ =>
              let db' := updateById st.db idv (updatePayload t)
              if env.updateTruthy then { st with db := db', updated := st.updated + 1 }
              else { st with db := db', errors := st.errors + 1 }
          | none =>
              let db' := st.db ++ [t]
              if env.insertAck then { st with db := db', inserted := st.inserted + 1 }
              else { st with db := db', errors := st.errors + 1 }

/-- The whole update/insert loop of force_refetch_and_update. -/
def reconcile (db0 : List Doc) (ts : List (Doc × TEnv)) : RState :=
  ts.foldl reconcileStep ⟨db0, 0, 0, 0⟩

/-- The persisted partition: none models a collection that does not exist. -/
abbrev Store := Option (List Doc)

/-- force_refetch_and_update: when the collection is absent the function
prints and returns False without creating anything; otherwise it runs the
reconciliation loop and reports updated + inserted > 0. -/
def force_refetch_and_update (st : Store) (ts : List (Doc × TEnv)) :
    Bool × Store :=
  match st with
  | none => (false, none)
  | some db0 =>
      let r := reconcile db0 ts
      (decide (0 < r.updated + r.inserted), some r.db)

/-- balance: read-through fetch.  A present collection is returned verbatim;
an absent one triggers fetch plus bulk insert inside a try/except that maps
any failure to False (insert_many of an empty list raises and is caught; an
unacknowledged insert returns False after the documents were handed to the
store). -/
def balance (st : Store) (fetched : Except FetchErr (List Doc))
    (insertAck : Bool) : Option (List Doc) × Store :=
  match st with
  | some db => (some db, some db)
  | none =>
      match fetched with
      | .error _ => (none, none)
      | .ok ts =>
          if ts.isEmpty then (none, none)
          else if insertAck then (some ts, some ts)
          else (none, some ts)

/-! ## Chunking lemmas -/

theorem chunkedAux_flatten (size : Nat) (l : List String) :
    ∀ acc : List String, (chunkedAux size acc l).flatten = acc.reverse ++ l := by
  induction l with
  | nil =>
      intro acc
      by_cases h : acc.isEmpty
      · rw [List.isEmpty_iff] at h
        simp [chunkedAux, h]
      · simp only [chunkedAux, h, Bool.false_eq_true, if_false]
        simp
  | cons x xs ih =>
      intro acc
      simp only [chunkedAux]
      by_cases h : size ≤ (x :: acc).length
      · rw [if_pos h]
        simp [ih]
      · rw [if_neg h, ih]
        simp

theorem chunked_flatten (l : List String) (size : Nat) :
    (chunked l size).flatten = l := by
  simpa using chunkedAux_flatten size l []

/-! ## Frame lemmas for the field-level update -/

theorem dGet_setField_ne (k k' : String) (v : Value) (h : ¬ k = k') :
    ∀ d : Doc, dGet (setField d k v) k' = dGet d k' := by
  intro d
  induction d with
  | nil => simp [setField, dGet, h]
  | cons p rest ih =>
      obtain ⟨k0, v0⟩ := p
      by_cases hk : k0 = k
      · subst hk
        simp [setField, dGet, h]
      · simp only [setField, if_neg hk, dGet]
        by_cases h2 : k0 = k' <;> simp [h2, ih]

theorem dGet_setFields_notmem (ps : List (String × Value)) (d : Doc) (k' : String)
    (h : k' ∉ ps.map Prod.fst) : dGet (setFields d ps) k' = dGet d k' := by
  induction ps generalizing d with
  | nil => rfl
  | cons p ps ih =>
      simp only [List.map_cons, List.mem_cons, not_or] at h
      show dGet (setFields (setField d p.1 p.2) ps) k' = dGet d k'
      rw [ih _ h.2, dGet_setField_ne _ _ _ (fun he => h.1 he.symm)]

theorem updatePayload_keys (t : Doc) : (updatePayload t).map Prod.fst = tenFields := rfl

theorem updateById_frame (db : List Doc) (idv : Value) (t : Doc) (k : String)
    (hk : k ∉ tenFields) :
    (updateById db idv (updatePayload t)).map (fun d => dGet d k)
      = db.map (fun d => dGet d k) := by
  induction db with
  | nil => rfl
  | cons d rest ih =>
      simp only [updateById]
      by_cases h : dGet d "_id" = some idv
      · rw [if_pos h]
        simp only [List.map_cons]
        rw [dGet_setFields_notmem _ _ _ (by rw [updatePayload_keys]; exact hk)]
      · rw [if_neg h]
        simp only [List.map_cons]
        rw [ih]

/-- Claim C1: a sync-driven update of an already persisted row sends a
payload containing exactly the ten Feature/QA/Auto/TMS fields, and applying
that payload through the field-level update leaves the comments array and
the Effort value of every stored document unchanged. -/
theorem c1_sync_update_frame (t : Doc) (db : List Doc) (idv : Value) :
    (updatePayload t).map Prod.fst = tenFields
    ∧ (updateById db idv (updatePayload t)).map (fun d => dGet d "comments")
        = db.map (fun d => dGet d "comments")
    ∧ (updateById db idv (updatePayload t)).map (fun d => dGet d "Effort")
        = db.map (fun d => dGet d "Effort") :=
  ⟨updatePayload_keys t,
   updateById_frame db idv t "comments" (by decide),
   updateById_frame db idv t "Effort" (by decide)⟩

/-! ## Backoff behaviour -/

/-- The successive delays slept when m further failing attempts remain
before the ceiling, starting from the current delay. -/
def sleepsFrom (d : ℚ) : Nat → List ℚ
  | 0 => []
  | m + 1 => d :: sleepsFrom (d * 2) m

theorem backoffAux_allfail {R : Type} (call : Nat → Except FetchErr R)
    (es : Nat → FetchErr) (h : ∀ n, call n = .error (es n)) :
    ∀ (m n : Nat) (d : ℚ), n + m = BACKOFF_MAX_RETRIES →
      backoffAux call n d
        = ⟨.error (es BACKOFF_MAX_RETRIES), BACKOFF_MAX_RETRIES + 1, sleepsFrom d m⟩ := by
  intro m
  induction m with
  | zero =>
      intro n d hn
      have hn4 : n = BACKOFF_MAX_RETRIES := by omega
      subst hn4
      rw [backoffAux, h BACKOFF_MAX_RETRIES]
      dsimp only
      rw [if_pos (le_refl _)]
      rfl
  | succ m ih =>
      intro n d hn
      rw [backoffAux, h n]
      dsimp only
      have hlt : ¬ BACKOFF_MAX_RETRIES ≤ n := by omega
      rw [if_neg hlt]
      rw [ih (n + 1) (d * 2) (by omega)]
      rfl

/-- When every attempt fails, the retry loop makes all five attempts, sleeps
the doubling delays in between, and re-raises the error of the final
attempt. -/
theorem backoff_allfail {R : Type} (call : Nat → Except FetchErr R)
    (es : Nat → FetchErr) (h : ∀ n, call n = .error (es n)) (d : ℚ) :
    backoffAux call 0 d
      = ⟨.error (es 4), 5, [d, d * 2, d * 2 * 2, d * 2 * 2 * 2]⟩ := by
  rw [backoffAux_allfail call es h 4 0 d rfl]
  rfl

/-- Claim C6: with backoff base 1.5 s and retry ceiling 4, a chunk lookup
that fails on every attempt performs exactly 5 attempts, sleeps 1.5 s, 3 s,
6 s and 12 s between them, re-raises the final failure, and the bulk fetch
containing that chunk returns no partial mapping, only the error. -/
theorem c6_backoff_exhaustion {R : Type} (call : Nat → Except FetchErr R)
    (es : Nat → FetchErr) (h : ∀ n, call n = .error (es n)) :
    search_issues_with_backoff call
      = ⟨.error (es 4), 5, [3 / 2, 3, 6, 12]⟩
    ∧ ∀ (callChunk : List String → Nat → Except FetchErr (List Issue))
        (keys : List String), keys ≠ [] →
        (∀ chunk n, callChunk chunk n = .error (es n)) →
        bulk_fetch_issues_by_keys_exc callChunk keys = .error (es 4) := by
  constructor
  · rw [search_issues_with_backoff, backoff_allfail call es h]
    norm_num [BACKOFF_BASE_SEC]
  · intro callChunk keys hne hcc
    have hjoin : (chunked keys CHUNK_SIZE).flatten = keys := chunked_flatten keys CHUNK_SIZE
    have hchunksne : chunked keys CHUNK_SIZE ≠ [] := by
      intro hc
      rw [hc] at hjoin
      exact hne hjoin.symm
    obtain ⟨c, cs, hcs⟩ := List.exists_cons_of_ne_nil hchunksne
    have hres : fetchChunkE callChunk c = .error (es 4) := by
      rw [fetchChunkE, search_issues_with_backoff, backoff_allfail _ es (hcc c)]
    have hkeysne : keys.isEmpty = false := by
      cases keys with
      | nil => exact absurd rfl hne
      | cons a l => rfl
    rw [bulk_fetch_issues_by_keys_exc, hkeysne]
    simp only [Bool.false_eq_true, if_false, hcs, List.foldlM_cons, hres, Except.map]
    rfl

def c6CallEx : Nat → Except FetchErr Unit := fun n => .error (.transient n)

def c6ChunkCallEx : List String → Nat → Except FetchErr (List Issue) :=
  fun _ n => .error (.transient n)

/-- Witness for C6 at a concrete always-failing call. -/
theorem c6_backoff_exhaustion_witness :
    search_issues_with_backoff c6CallEx
      = ⟨.error (.transient 4), 5, [3 / 2, 3, 6, 12]⟩
    ∧ bulk_fetch_issues_by_keys_exc c6ChunkCallEx ["SWDEV-1"]
      = .error (.transient 4) := by
  have h := c6_backoff_exhaustion c6CallEx FetchErr.transient (fun n => rfl)
  exact ⟨h.1, h.2 c6ChunkCallEx ["SWDEV-1"] (by decide) (fun chunk n => rfl)⟩

/-- Claim C7: the claim says a permanent failure (bad auth, malformed query)
is surfaced immediately on the first attempt with no backoff sleeps.  The
retry loop catches every exception alike, so a call that always raises a
permanent failure is still attempted five times with four backoff sleeps --
contradicting the claim and the comment inside the function itself (retry on
transient errors, otherwise re-raise). -/
theorem c7_permanent_failure_retried :
    search_issues_with_backoff (fun _ => (.error (.permanent 401) : Except FetchErr Unit))
      = ⟨.error (.permanent 401), 5, [3 / 2, 3, 6, 12]⟩ := by
  rw [search_issues_with_backoff,
    backoff_allfail (fun _ => .error (.permanent 401)) (fun _ => .permanent 401)
      (fun _ => rfl) BACKOFF_BASE_SEC]
  norm_num [BACKOFF_BASE_SEC]

/-! ## Reconciliation accounting (claims C8, C9) -/

/-- A ticket the loop skips via continue without touching any counter: no
exception was raised and the identity is missing or falsy. -/
def skippedTicket (p : Doc × TEnv) : Bool :=
  !p.2.raisesExc &&
    (match dGet p.1 "_id" with
     | none => true
     | some v => vFalsy v)

theorem reconcileStep_counts (st : RState) (p : Doc × TEnv) :
    (reconcileStep st p).updated + (reconcileStep st p).inserted
        + (reconcileStep st p).errors
      = st.updated + st.inserted + st.errors
        + (if skippedTicket p then 0 else 1) := by
  obtain ⟨t, env⟩ := p
  simp only [reconcileStep, skippedTicket]
  by_cases he : env.raisesExc
  · simp [he]
    omega
  · simp only [he, Bool.not_false, Bool.true_and]
    cases hid : dGet t "_id" with
    | none => simp
    | some v =>
        by_cases hv : vFalsy v
        · simp [hv]
        · simp only [hv, Bool.false_eq_true, if_false]
          cases findById st.db v with
          | some d => by_cases hu : env.updateTruthy <;> simp [hu] <;> omega
          | none => by_cases hi : env.insertAck <;> simp [hi] <;> omega

theorem reconcile_accounting (ts : List (Doc × TEnv)) :
    ∀ st : RState,
      (ts.foldl reconcileStep st).updated + (ts.foldl reconcileStep st).inserted
          + (ts.foldl reconcileStep st).errors + ts.countP skippedTicket
        = st.updated + st.inserted + st.errors + ts.length := by
  induction ts with
  | nil => intro st; simp
  | cons p ts ih =>
      intro st
      rw [List.foldl_cons, List.countP_cons, List.length_cons]
      have h1 := ih (reconcileStep st p)
      have h2 := reconcileStep_counts st p
      by_cases hs : skippedTicket p <;> simp [hs] at h2 ⊢ <;> omega

/-- Claim C9 (amended): the reported success boolean equals
(updated + inserted) > 0, and every ticket of the batch is processed --
each one lands in exactly one of updated / inserted / errors / skipped, so
no record aborts the loop.  Records whose identity is missing or falsy are
the skipped ones: they are not counted in the error summary. -/
theorem c9_reconcile_summary (db0 : List Doc) (ts : List (Doc × TEnv)) :
    (force_refetch_and_update (some db0) ts).1
        = decide (0 < (reconcile db0 ts).updated + (reconcile db0 ts).inserted)
    ∧ (reconcile db0 ts).updated + (reconcile db0 ts).inserted
        + (reconcile db0 ts).errors + ts.countP skippedTicket = ts.length := by
  constructor
  · rfl
  · have := reconcile_accounting ts ⟨db0, 0, 0, 0⟩
    simpa [reconcile] using this

def c9TicketNoId : Doc := [("Feature_status", .vstr "In Progress")]

/-- Counterexample to C9 as stated: a malformed record with a missing
identity is a record-level failure, yet after processing it the error count
of the summary is still zero -- the failure is logged but not counted. -/
theorem c9_missing_id_not_counted :
    dGet c9TicketNoId "_id" = none
    ∧ (reconcile [] [(c9TicketNoId, ⟨false, true, true⟩)]).errors = 0
    ∧ (reconcile [] [(c9TicketNoId, ⟨false, true, true⟩)]).updated = 0
    ∧ (reconcile [] [(c9TicketNoId, ⟨false, true, true⟩)]).inserted = 0 := by
  refine ⟨rfl, rfl, rfl, rfl⟩

def c8Ticket : Doc := [("_id", .vstr "F1|Q1"), ("Feature_status", .vstr "Done")]

/-- Counterexample to C8 as stated: on a missing partition the force-refresh
entry point returns False and leaves the partition uncreated -- it does not
trigger full initialization (no bulk insert happens), even with freshly
fetched rows in hand. -/
theorem c8_force_refresh_no_init :
    force_refetch_and_update none [(c8Ticket, ⟨false, true, true⟩)] = (false, none) := rfl

/-- Claim C8 (amended): on a missing partition the force-refresh path skips
reconciliation and reports failure without creating the partition; full
initialization (create the partition by bulk-inserting the freshly fetched
rows and return them) is performed by the read-through entry point instead. -/
theorem c8_missing_partition (ts : List (Doc × TEnv)) (rows : List Doc)
    (hne : rows ≠ []) :
    force_refetch_and_update none ts = (false, none)
    ∧ balance none (.ok rows) true = (some rows, some rows) := by
  refine ⟨rfl, ?_⟩
  simp [balance, hne]

/-- Witness for the amended C8 at concrete inputs. -/
theorem c8_missing_partition_witness :
    force_refetch_and_update none [] = (false, none)
    ∧ balance none (.ok [c8Ticket]) true = (some [c8Ticket], some [c8Ticket]) :=
  c8_missing_partition [] [c8Ticket] (by decide)

/-! ## QA-qualification filter against the spec wording (claim C4) -/

/-- The spec-side triage condition: the first element of the triage list
(when the field is a non-empty list), or the field itself (when it is a bare
string), equals the sentinel 73317. -/
def triageQualSpec : Triage → Prop
  | .listv l => l.head? = some "73317"
  | .strv s => s = "73317"
  | .other => False

/-- The spec-side qualification predicate, written from the claim: the
fields are readable, the issue-type name is Task, the triage sentinel holds
and the status name is not Rejected. -/
def qaQualSpec (i : Issue) : Prop :=
  ∃ f, i.fields = some f
    ∧ f.issuetypeName.getD "" = "Task"
    ∧ triageQualSpec f.triage
    ∧ f.statusName.getD "" ≠ "Rejected"

/-- Claim C4: the QA filter accepts exactly the records satisfying the
three spec conditions; in particular a record whose issue-type differs from
Task is rejected whatever the other fields hold, and a record whose fields
cannot be read (the exception path) is rejected -- fail closed. -/
theorem c4_qa_filter_spec (i : Issue) :
    (qa_filter i = true ↔ qaQualSpec i)
    ∧ (∀ f, i.fields = some f → f.issuetypeName.getD "" ≠ "Task" → qa_filter i = false)
    ∧ (i.fields = none → qa_filter i = false) := by
  refine ⟨?_, ?_, ?_⟩
  · cases hf : i.fields with
    | none =>
        simp only [qa_filter, hf, qaQualSpec]
        constructor
        · intro h
          exact absurd h (by simp)
        · rintro ⟨f, hff, -⟩
          exact absurd hff (by simp)
    | some f =>
        simp only [qa_filter, hf, qa_filter_core, qaQualSpec, Option.some.injEq]
        constructor
        · intro h
          simp only [Bool.and_eq_true, decide_eq_true_eq, Bool.not_eq_eq_eq_not,
            Bool.not_true, decide_eq_false_iff_not] at h
          refine ⟨f, rfl, h.1.1, ?_, h.2⟩
          cases ht : f.triage with
          | listv l =>
              cases l with
              | nil => rw [ht] at h; exact absurd h.1.2 (by simp)
              | cons x xs =>
                  rw [ht] at h
                  simp only [decide_eq_true_eq] at h
                  simp [triageQualSpec, h.1.2]
          | strv s =>
              rw [ht] at h
              simp only [decide_eq_true_eq] at h
              simp [triageQualSpec, h.1.2]
          | other => rw [ht] at h; exact absurd h.1.2 (by simp)
        · rintro ⟨f', hff', hty, htr, hst⟩
          cases hff'
          simp only [Bool.and_eq_true, decide_eq_true_eq, Bool.not_eq_eq_eq_not,
            Bool.not_true, decide_eq_false_iff_not]
          refine ⟨⟨hty, ?_⟩, hst⟩
          cases ht : f.triage with
          | listv l =>
              rw [ht] at htr
              cases l with
              | nil => exact absurd htr (by simp [triageQualSpec])
              | cons x xs =>
                  simp only [triageQualSpec, List.head?_cons, Option.some.injEq] at htr
                  simp [htr]
          | strv s =>
              rw [ht] at htr
              simp only [triageQualSpec] at htr
              simp [htr]
          | other =>
              rw [ht] at htr
              exact absurd htr (by simp [triageQualSpec])
  · intro f hf hty
    simp only [qa_filter, hf, qa_filter_core]
    simp [hty]
  · intro hf
    simp [qa_filter, hf]

def c4FieldsNonTask : QFields :=
  { statusName := some "Open", summary := some "child",
    assignee := none, labels := none, issuelinks := none,
    issuetypeName := some "Bug", triage := .listv ["73317"] }

def c4IssueNonTask : Issue := ⟨"SWDEV-2", some c4FieldsNonTask⟩

/-- Witness for C4: a non-Task child with a matching triage sentinel and a
non-Rejected status is still rejected by the filter. -/
theorem c4_qa_filter_spec_witness : qa_filter c4IssueNonTask = false :=
  (c4_qa_filter_spec c4IssueNonTask).2.1 _ rfl (by decide)

/-! ## Auto/TMS link scan (claim C10) -/

theorem scanAuto_frozen (key : Option String) (s st : String) (r : Row)
    (h : r.Auto_task ≠ "NA") : scanAuto key s st r = r := by
  rw [scanAuto, if_neg (fun hc => h hc.2.2)]

theorem scanTms_frozen (key : Option String) (s st : String) (r : Row)
    (h : r.TMS_task ≠ "NA") : scanTms key s st r = r := by
  rw [scanTms, if_neg (fun hc => h hc.2.2)]

theorem scanAuto_tms_fields (key : Option String) (s st : String) (r : Row) :
    (scanAuto key s st r).TMS_task = r.TMS_task
    ∧ (scanAuto key s st r).TMS_status = r.TMS_status := by
  rw [scanAuto]
  split <;> exact ⟨rfl, rfl⟩

theorem scanTms_auto_fields (key : Option String) (s st : String) (r : Row) :
    (scanTms key s st r).Auto_task = r.Auto_task
    ∧ (scanTms key s st r).Auto_status = r.Auto_status := by
  rw [scanTms]
  split <;> exact ⟨rfl, rfl⟩

theorem scanSide_auto_frozen (r : Row) (side : Option LinkedIssue)
    (h : r.Auto_task ≠ "NA") :
    (scanSide r side).Auto_task = r.Auto_task
    ∧ (scanSide r side).Auto_status = r.Auto_status := by
  cases side with
  | none => exact ⟨rfl, rfl⟩
  | some linked =>
      simp only [scanSide]
      split
      · exact ⟨rfl, rfl⟩
      split
      · exact ⟨rfl, rfl⟩
      rw [scanAuto_frozen _ _ _ _ h]
      exact scanTms_auto_fields _ _ _ _

theorem scanSide_tms_frozen (r : Row) (side : Option LinkedIssue)
    (h : r.TMS_task ≠ "NA") :
    (scanSide r side).TMS_task = r.TMS_task
    ∧ (scanSide r side).TMS_status = r.TMS_status := by
  cases side with
  | none => exact ⟨rfl, rfl⟩
  | some linked =>
      simp only [scanSide]
      split
      · exact ⟨rfl, rfl⟩
      split
      · exact ⟨rfl, rfl⟩
      have hA := scanAuto_tms_fields linked.key (linked.summary.getD "")
        (linked.statusName.getD "NA") r
      rw [scanTms_frozen _ _ _ _ (by rw [hA.1]; exact h)]
      exact hA

theorem scanLink_auto_frozen (r : Row) (l : Link) (h : r.Auto_task ≠ "NA") :
    (scanLink r l).Auto_task = r.Auto_task
    ∧ (scanLink r l).Auto_status = r.Auto_status := by
  simp only [scanLink]
  have h1 := scanSide_auto_frozen r l.inwardIssue h
  split
  · exact h1
  · have h2 := scanSide_auto_frozen _ l.outwardIssue (by rw [h1.1]; exact h)
    exact ⟨h2.1.trans h1.1, h2.2.trans h1.2⟩

theorem scanLink_tms_frozen (r : Row) (l : Link) (h : r.TMS_task ≠ "NA") :
    (scanLink r l).TMS_task = r.TMS_task
    ∧ (scanLink r l).TMS_status = r.TMS_status := by
  simp only [scanLink]
  have h1 := scanSide_tms_frozen r l.inwardIssue h
  split
  · exact h1
  · have h2 := scanSide_tms_frozen _ l.outwardIssue (by rw [h1.1]; exact h)
    exact ⟨h2.1.trans h1.1, h2.2.trans h1.2⟩

def c10BothLinked : LinkedIssue :=
  { key := some "SWDEV-AT1", issuetypeName := some "Task",
    summary := some "Automation TMS regression suite",
    statusName := some "Open", fieldsPresent := true }

def c10Link : Link :=
  { inwardIssue := some c10BothLinked, outwardIssue := none,
    typeInward := some "relates to" }

def c10QaFields : QFields :=
  { statusName := some "In Progress", summary := some "qa child",
    assignee := none, labels := none,
    issuelinks := some [c10Link],
    issuetypeName := some "Task", triage := .strv "73317" }

def c10FeatureFields : FFields :=
  { statusName := some "Open", summary := some "feature",
    description := some "#teams_committed QA", issuelinks := none }

def c10Feature : Feature := ⟨"SWDEV-F1", c10FeatureFields⟩

/-- Claim C10: once the Auto (respectively TMS) slot of the row is filled
with a non-NA value, scanning any further links leaves it unchanged (the
first match wins); and a single linked Task whose summary matches both
patterns is recorded as both the Auto task and the TMS task of the row. -/
theorem c10_first_match_wins :
    (∀ (r : Row) (links : List Link),
      (r.Auto_task ≠ "NA" →
        (links.foldl scanLink r).Auto_task = r.Auto_task
        ∧ (links.foldl scanLink r).Auto_status = r.Auto_status)
      ∧ (r.TMS_task ≠ "NA" →
        (links.foldl scanLink r).TMS_task = r.TMS_task
        ∧ (links.foldl scanLink r).TMS_status = r.TMS_status))
    ∧ (get_task_details c10Feature (some ("SWDEV-Q1", c10QaFields))).Auto_task = "SWDEV-AT1"
    ∧ (get_task_details c10Feature (some ("SWDEV-Q1", c10QaFields))).TMS_task = "SWDEV-AT1"
    ∧ (get_task_details c10Feature (some ("SWDEV-Q1", c10QaFields))).Auto_status = "Open"
    ∧ (get_task_details c10Feature (some ("SWDEV-Q1", c10QaFields))).TMS_status = "Open" := by
  refine ⟨?_, by decide, by decide, by decide, by decide⟩
  intro r links
  constructor
  · intro h
    induction links generalizing r with
    | nil => exact ⟨rfl, rfl⟩
    | cons l ls ih =>
        rw [List.foldl_cons]
        have h1 := scanLink_auto_frozen r l h
        have h2 := ih (scanLink r l) (by rw [h1.1]; exact h)
        exact ⟨h2.1.trans h1.1, h2.2.trans h1.2⟩
  · intro h
    induction links generalizing r with
    | nil => exact ⟨rfl, rfl⟩
    | cons l ls ih =>
        rw [List.foldl_cons]
        have h1 := scanLink_tms_frozen r l h
        have h2 := ih (scanLink r l) (by rw [h1.1]; exact h)
        exact ⟨h2.1.trans h1.1, h2.2.trans h1.2⟩

def c10RowSet : Row :=
  { id := "F|Q", Feature_status := "Open", Feature_summary := "s",
    QA_task := "Q", QA_status := "Open", QA_assignee := "NA", QA_labels := "NA",
    Auto_task := "SWDEV-OLD", Auto_status := "Closed",
    TMS_task := "SWDEV-OLDT", TMS_status := "Closed", comments := [] }

/-- Witness for C10: with both slots already filled, scanning a link that
matches both patterns changes nothing. -/
theorem c10_first_match_wins_witness :
    (([c10Link].foldl scanLink c10RowSet).Auto_task = "SWDEV-OLD")
    ∧ (([c10Link].foldl scanLink c10RowSet).TMS_task = "SWDEV-OLDT") := by
  have h := c10_first_match_wins.1 c10RowSet [c10Link]
  exact ⟨(h.1 (by decide)).1, (h.2 (by decide)).1⟩

/-! ## Commitment filter (claim C5) -/

/-- The spec-side reading of the marker pattern: somewhere in the lowercased
description the literal marker occurs, followed by the literal qa with no
newline in between (the non-greedy dot-star span). -/
def markerThenQA (s : String) : Prop :=
  ∃ pre mid post : List Char,
    lowerStr s = pre ++ markerChars ++ mid ++ 'q' :: 'a' :: post ∧ '\n' ∉ mid

theorem matchAt_iff (p : List Char) : ∀ l, matchAt p l = true ↔ ∃ rest, l = p ++ rest := by
  induction p with
  | nil =>
      intro l
      simp [matchAt]
  | cons a p ih =>
      intro l
      cases l with
      | nil => simp [matchAt]
      | cons c cs =>
          simp only [matchAt, Bool.and_eq_true, decide_eq_true_eq, ih]
          constructor
          · rintro ⟨rfl, rest, rfl⟩
            exact ⟨rest, rfl⟩
          · rintro ⟨rest, hr⟩
            rw [List.cons_append] at hr
            injection hr with h1 h2
            exact ⟨h1.symm, rest, h2⟩

theorem qaTail_iff (l : List Char) :
    qaTail l = true ↔ ∃ mid post, l = mid ++ 'q' :: 'a' :: post ∧ '\n' ∉ mid := by
  induction l with
  | nil =>
      simp only [qaTail]
      constructor
      · intro h
        exact absurd h (by simp)
      · rintro ⟨mid, post, h, -⟩
        cases mid <;> simp_all
  | cons c cs ih =>
      by_cases hqa : matchAt ['q', 'a'] (c :: cs) = true
      · obtain ⟨rest, hr⟩ := (matchAt_iff _ _).1 hqa
        simp only [qaTail, hqa, if_true]
        refine iff_of_true trivial ⟨[], rest, ?_, by simp⟩
        simpa using hr
      · by_cases hnl : c = '\n'
        · subst hnl
          simp only [qaTail]
          rw [if_neg hqa, if_pos trivial]
          constructor
          · intro h
            exact absurd h (by simp)
          · rintro ⟨mid, post, heq, hnin⟩
            cases mid with
            | nil =>
                rw [List.nil_append] at heq
                injection heq with h1 h2
                exact absurd h1 (by decide)
            | cons m mid' =>
                rw [List.cons_append] at heq
                injection heq with h1 h2
                exact absurd (h1 ▸ List.mem_cons_self _ _) (fun hm => hnin hm)
        · simp only [qaTail]
          rw [if_neg hqa, if_neg hnl]
          rw [ih]
          constructor
          · rintro ⟨mid, post, heq, hnin⟩
            exact ⟨c :: mid, post, by rw [List.cons_append, heq], by
              simp only [List.mem_cons, not_or]
              exact ⟨fun hc => hnl hc.symm, hnin⟩⟩
          · rintro ⟨mid, post, heq, hnin⟩
            cases mid with
            | nil =>
                rw [List.nil_append] at heq
                exact absurd ((matchAt_iff _ _).2 ⟨post, heq⟩) hqa
            | cons m mid' =>
                rw [List.cons_append] at heq
                injection heq with h1 h2
                refine ⟨mid', post, h2, fun hm => hnin (List.mem_cons_of_mem _ hm)⟩

theorem qaCommittedSearch_iff (l : List Char) :
    qaCommittedSearch l = true
      ↔ ∃ pre mid post, l = pre ++ markerChars ++ mid ++ 'q' :: 'a' :: post
          ∧ '\n' ∉ mid := by
  induction l with
  | nil =>
      simp only [qaCommittedSearch]
      constructor
      · intro h
        exact absurd h (by simp)
      · rintro ⟨pre, mid, post, heq, -⟩
        cases pre <;> simp_all [markerChars]
  | cons c cs ih =>
      simp only [qaCommittedSearch, Bool.or_eq_true, Bool.and_eq_true]
      constructor
      · rintro (⟨hm, ht⟩ | hrec)
        · obtain ⟨rest, hr⟩ := (matchAt_iff _ _).1 hm
          have hdrop : (c :: cs).drop markerChars.length = rest := by
            rw [hr]
            exact List.drop_left _ _
          rw [hdrop] at ht
          obtain ⟨mid, post, hmp, hnin⟩ := (qaTail_iff _).1 ht
          refine ⟨[], mid, post, ?_, hnin⟩
          simp [hr, hmp, List.append_assoc]
        · obtain ⟨pre, mid, post, heq, hnin⟩ := ih.1 hrec
          exact ⟨c :: pre, mid, post, by simp [heq, List.append_assoc], hnin⟩
      · rintro ⟨pre, mid, post, heq, hnin⟩
        cases pre with
        | nil =>
            left
            rw [List.nil_append] at heq
            have hm : matchAt markerChars (c :: cs) = true :=
              (matchAt_iff _ _).2 ⟨mid ++ 'q' :: 'a' :: post, by rw [heq, List.append_assoc]⟩
            refine ⟨hm, ?_⟩
            have hdrop : (c :: cs).drop markerChars.length = mid ++ 'q' :: 'a' :: post := by
              rw [show (c :: cs) = markerChars ++ (mid ++ 'q' :: 'a' :: post) from by
                rw [heq, List.append_assoc]]
              exact List.drop_left _ _
            rw [hdrop]
            exact (qaTail_iff _).2 ⟨mid, post, rfl, hnin⟩
        | cons p pre' =>
            right
            rw [List.cons_append] at heq
            injection heq with h1 h2
            exact ih.2 ⟨pre', mid, post, h2, hnin⟩

theorem filter_erase_of_neg {α : Type} [DecidableEq α] (p : α → Bool) (x : α)
    (hx : p x = false) : ∀ l : List α, (l.erase x).filter p = l.filter p := by
  intro l
  induction l with
  | nil => rfl
  | cons a l ih =>
      rw [List.erase_cons]
      by_cases hax : a = x
      · subst hax
        simp [List.filter_cons, hx]
      · rw [if_neg (by simp [hax])]
        simp [List.filter_cons, ih]

def c5ExampleFields : FFields :=
  { statusName := some "Open", summary := some "feat",
    description := some "#teams_committed later discussion QA rollout",
    issuelinks := none }

def c5ExampleFeature : Feature := ⟨"SWDEV-100", c5ExampleFields⟩

/-- Claim C5: a feature whose description does not contain the marker
followed (without an intervening newline) by QA fails the commitment filter,
is dropped from the committed list, and contributes zero rows to the sync
output (erasing it from the input changes nothing); and the concrete
description of the scenario does match the filter. -/
theorem c5_commitment_filter (features : List Feature) (t : Feature)
    (mp : String → Option Issue)
    (h : ¬ markerThenQA (t.fields.description.getD "")) :
    commitFilter t = false
    ∧ t ∉ get_qa_committed_tasks features
    ∧ fetch_tickets_rows (features.erase t) mp = fetch_tickets_rows features mp
    ∧ commitFilter c5ExampleFeature = true := by
  have hf : commitFilter t = false := by
    rw [commitFilter]
    cases hq : qaCommittedSearch (lowerStr (t.fields.description.getD "")) with
    | false => rfl
    | true =>
        obtain ⟨pre, mid, post, heq, hnin⟩ := (qaCommittedSearch_iff _).1 hq
        exact absurd ⟨pre, mid, post, heq, hnin⟩ h
  refine ⟨hf, ?_, ?_, by decide⟩
  · intro hmem
    rw [get_qa_committed_tasks, List.mem_filter] at hmem
    rw [hf] at hmem
    exact absurd hmem.2 (by simp)
  · rw [fetch_tickets_rows, fetch_tickets_rows, get_qa_committed_tasks,
      get_qa_committed_tasks, filter_erase_of_neg commitFilter t hf features]

def c5PlainFields : FFields :=
  { statusName := some "Open", summary := some "feat",
    description := some "regular feature with qa mention only",
    issuelinks := none }

def c5PlainFeature : Feature := ⟨"SWDEV-200", c5PlainFields⟩

/-- Witness for C5 at a concrete unmarked description. -/
theorem c5_commitment_filter_witness :
    commitFilter c5PlainFeature = false
    ∧ c5PlainFeature ∉ get_qa_committed_tasks [c5PlainFeature, c5ExampleFeature]
    ∧ fetch_tickets_rows ([c5PlainFeature, c5ExampleFeature].erase c5PlainFeature)
        (fun _ => none)
      = fetch_tickets_rows [c5PlainFeature, c5ExampleFeature] (fun _ => none)
    ∧ commitFilter c5ExampleFeature = true :=
  c5_commitment_filter [c5PlainFeature, c5ExampleFeature] c5PlainFeature (fun _ => none)
    (fun hm => absurd ((qaCommittedSearch_iff _).2 hm) (by decide))

/-! ## Row fan-out per feature (claim C3) -/

theorem scanAuto_id (key : Option String) (s st : String) (r : Row) :
    (scanAuto key s st r).id = r.id := by
  rw [scanAuto]
  split <;> rfl

theorem scanTms_id (key : Option String) (s st : String) (r : Row) :
    (scanTms key s st r).id = r.id := by
  rw [scanTms]
  split <;> rfl

theorem scanSide_id (r : Row) (side : Option LinkedIssue) :
    (scanSide r side).id = r.id := by
  cases side with
  | none => rfl
  | some linked =>
      simp only [scanSide]
      split
      · rfl
      split
      · rfl
      rw [scanTms_id, scanAuto_id]

theorem scanLink_id (r : Row) (l : Link) : (scanLink r l).id = r.id := by
  simp only [scanLink]
  split
  · exact scanSide_id _ _
  · rw [scanSide_id, scanSide_id]

theorem foldl_scanLink_id (links : List Link) :
    ∀ r : Row, (links.foldl scanLink r).id = r.id := by
  induction links with
  | nil => intro r; rfl
  | cons l ls ih => intro r; rw [List.foldl_cons, ih, scanLink_id]

theorem get_task_details_id (ft : Feature) (k : String) (f : QFields) :
    (get_task_details ft (some (k, f))).id = ft.key ++ "|" ++ k := by
  simp only [get_task_details]
  rw [foldl_scanLink_id]
  split <;> split <;> rfl

theorem rowForKey_none (ft : Feature) (mp : String → Option Issue) (k : String)
    (h : qualifiesB mp k = false) : rowForKey ft mp k = none := by
  unfold rowForKey
  unfold qualifiesB qa_filter at h
  cases hmk : mp k with
  | none => rfl
  | some qa =>
      rw [hmk] at h
      dsimp only at h ⊢
      cases hf : qa.fields with
      | none => rfl
      | some f =>
          rw [hf] at h
          dsimp only at h ⊢
          rw [if_neg (by simp [h])]

theorem rowForKey_some (ft : Feature) (mp : String → Option Issue) (k : String)
    (h : qualifiesB mp k = true) :
    ∃ qa f, mp k = some qa ∧ qa.fields = some f
      ∧ rowForKey ft mp k = some (get_task_details ft (some (qa.key, f))) := by
  unfold rowForKey
  unfold qualifiesB qa_filter at h
  cases hmk : mp k with
  | none => rw [hmk] at h; exact absurd h (by simp)
  | some qa =>
      rw [hmk] at h
      dsimp only at h ⊢
      cases hf : qa.fields with
      | none => rw [hf] at h; exact absurd h (by simp)
      | some f =>
          rw [hf] at h
          dsimp only at h ⊢
          exact ⟨qa, f, rfl, hf, by rw [if_pos h]⟩

theorem rowForKey_map_id (ft : Feature) (mp : String → Option Issue)
    (hkey : ∀ k i, mp k = some i → i.key = k) :
    ∀ keys : List String,
      (keys.filterMap (rowForKey ft mp)).map Row.id
        = (keys.filter (qualifiesB mp)).map (fun k => ft.key ++ "|" ++ k) := by
  intro keys
  induction keys with
  | nil => rfl
  | cons k ks ih =>
      rw [List.filterMap_cons, List.filter_cons]
      by_cases hq : qualifiesB mp k = true
      · obtain ⟨qa, f, hmk, hf, hrow⟩ := rowForKey_some ft mp k hq
        rw [hrow, if_pos hq]
        dsimp only
        rw [List.map_cons, List.map_cons, ih, get_task_details_id, hkey k qa hmk]
      · have hq0 : qualifiesB mp k = false := by
          revert hq
          cases qualifiesB mp k <;> simp
        rw [rowForKey_none ft mp k hq0, if_neg hq]
        dsimp only
        exact ih

theorem compId_injective (s : String) :
    Function.Injective (fun k : String => s ++ "|" ++ k) := by
  intro a b h
  simp only at h
  have hd := congrArg String.data h
  simp only [String.data_append] at hd
  exact String.ext (List.append_cancel_left hd)

/-- Claim C3 (amended): provided the candidate key list of the feature has
no duplicates, a feature with n ≥ 1 qualifying candidates yields exactly n
rows with pairwise distinct composite identities feature|child, and a
feature with zero qualifying candidates yields exactly the single NA row
whose identity is the feature key and whose QA/Auto/TMS fields are all
NA. -/
theorem c3_row_fanout (ft : Feature) (keys : List String)
    (mp : String → Option Issue)
    (hkey : ∀ k i, mp k = some i → i.key = k) (hnd : keys.Nodup) :
    (1 ≤ (keys.filter (qualifiesB mp)).length →
      (buildFeatureRows ft keys mp).length = (keys.filter (qualifiesB mp)).length
      ∧ ((buildFeatureRows ft keys mp).map Row.id).Nodup
      ∧ ∀ r ∈ buildFeatureRows ft keys mp, ∃ k, k ∈ keys
          ∧ qualifiesB mp k = true ∧ r.id = ft.key ++ "|" ++ k)
    ∧ ((keys.filter (qualifiesB mp)).length = 0 →
      buildFeatureRows ft keys mp = [get_task_details ft none])
    ∧ (get_task_details ft none).id = ft.key
    ∧ (get_task_details ft none).QA_task = "NA"
    ∧ (get_task_details ft none).QA_status = "NA"
    ∧ (get_task_details ft none).QA_assignee = "NA"
    ∧ (get_task_details ft none).QA_labels = "NA"
    ∧ (get_task_details ft none).Auto_task = "NA"
    ∧ (get_task_details ft none).Auto_status = "NA"
    ∧ (get_task_details ft none).TMS_task = "NA"
    ∧ (get_task_details ft none).TMS_status = "NA" := by
  have hmap := rowForKey_map_id ft mp hkey keys
  refine ⟨?_, ?_, rfl, rfl, rfl, rfl, rfl, rfl, rfl, rfl, rfl⟩
  · intro hge
    have hLne : keys.filterMap (rowForKey ft mp) ≠ [] := by
      intro h0
      have hlen : (keys.filter (qualifiesB mp)).length = 0 := by
        have := congrArg List.length hmap
        rw [h0, List.length_map, List.length_map, List.length_nil] at this
        omega
      omega
    have hrows : buildFeatureRows ft keys mp = keys.filterMap (rowForKey ft mp) := by
      simp only [buildFeatureRows]
      rw [if_neg (by simp [List.isEmpty_iff, hLne])]
    refine ⟨?_, ?_, ?_⟩
    · rw [hrows]
      have := congrArg List.length hmap
      rw [List.length_map, List.length_map] at this
      exact this
    · rw [hrows, hmap]
      exact ((hnd.filter _).map (compId_injective ft.key))
    · intro r hr
      rw [hrows] at hr
      obtain ⟨k, hkmem, hk⟩ := List.mem_filterMap.1 hr
      by_cases hq : qualifiesB mp k = true
      · obtain ⟨qa, f, hmk, hf, hrow⟩ := rowForKey_some ft mp k hq
        rw [hrow] at hk
        injection hk with hk
        refine ⟨k, hkmem, hq, ?_⟩
        rw [← hk, get_task_details_id, hkey k qa hmk]
      · have hq0 : qualifiesB mp k = false := by
          revert hq
          cases qualifiesB mp k <;> simp
        rw [rowForKey_none ft mp k hq0] at hk
        exact absurd hk (by simp)
  · intro h0
    have hfilter : keys.filter (qualifiesB mp) = [] := List.length_eq_zero.1 h0
    have hLnil : keys.filterMap (rowForKey ft mp) = [] := by
      have h1 : (keys.filterMap (rowForKey ft mp)).map Row.id = [] := by
        rw [hmap, hfilter]
        rfl
      exact List.map_eq_nil_iff.1 h1
    simp only [buildFeatureRows]
    rw [if_pos (by simp [List.isEmpty_iff, hLnil])]

def c3QaFields : QFields :=
  { statusName := some "Open", summary := some "qa", assignee := none,
    labels := none, issuelinks := none, issuetypeName := some "Task",
    triage := .strv "73317" }

def c3Feature : Feature :=
  ⟨"SWDEV-F3", { statusName := some "Open", summary := some "f",
                 description := some "#teams_committed QA",
                 issuelinks := none }⟩

/-- Bulk map whose issues carry their own lookup key, as the keyed merge of
_bulk_fetch_issues_by_keys guarantees. -/
def c3Map : String → Option Issue := fun k => some ⟨k, some c3QaFields⟩

/-- Counterexample to C3 as stated: a feature whose candidate key list
mentions the same child twice has exactly one distinct qualifying fetched
child, yet row building produces two rows, and their composite identities
are not distinct. -/
theorem c3_duplicate_key_rows :
    ((["K", "K"].filter (qualifiesB c3Map)).dedup.length = 1)
    ∧ (buildFeatureRows c3Feature ["K", "K"] c3Map).length = 2
    ∧ ¬ ((buildFeatureRows c3Feature ["K", "K"] c3Map).map Row.id).Nodup := by
  refine ⟨by decide, by decide, by decide⟩

/-- Witness for the amended C3 on two distinct qualifying candidates. -/
theorem c3_row_fanout_witness :
    (buildFeatureRows c3Feature ["K1", "K2"] c3Map).length = 2
    ∧ ((buildFeatureRows c3Feature ["K1", "K2"] c3Map).map Row.id).Nodup := by
  have h := c3_row_fanout c3Feature ["K1", "K2"] c3Map
    (fun k i hh => by injection hh with h2; rw [← h2]) (by decide)
  have h1 := h.1 (by decide)
  refine ⟨?_, h1.2.1⟩
  rw [h1.1]
  decide

/-! ## Keyed merge order-independence (claim C2) -/

/-- The mapping a correct bulk fetch of the key list should produce against
a fixed backend: resolve exactly the listed keys. -/
def tgtMap (backend : String → Option Issue) (l : List String) :
    String → Option Issue :=
  fun k => if k ∈ l then backend k else none

theorem mergeChunk_eval (backend : String → Option Issue)
    (hkey : ∀ k i, backend k = some i → i.key = k) :
    ∀ (c : List String) (m : String → Option Issue),
      mergeChunkResults m (fetchChunkIssues backend c)
        = fun k => if k ∈ c ∧ (backend k).isSome then backend k else m k := by
  intro c
  induction c with
  | nil =>
      intro m
      funext k
      simp [mergeChunkResults, fetchChunkIssues]
  | cons a c ih =>
      intro m
      rw [fetchChunkIssues, List.filterMap_cons]
      cases hba : backend a with
      | none =>
          dsimp only
          rw [show List.filterMap backend c = fetchChunkIssues backend c from rfl, ih m]
          funext k
          by_cases hk : k = a
          · subst hk
            simp [hba]
          · simp [hk]
      | some i =>
          have hik : i.key = a := hkey a i hba
          dsimp only
          rw [show mergeChunkResults m (i :: List.filterMap backend c)
              = mergeChunkResults (mergeIssue m i) (fetchChunkIssues backend c) from rfl]
          rw [ih (mergeIssue m i)]
          funext k
          by_cases hk : k = a
          · subst hk
            by_cases hkc : k ∈ c
            · simp [hkc, hba]
            · simp [hkc, hba, mergeIssue, hik]
          · by_cases hkc : k ∈ c
            · cases hbk : backend k <;> simp [hk, hkc, hbk, mergeIssue, hik]
            · simp [hk, hkc, mergeIssue, hik]

theorem bulkFromChunks_eval (backend : String → Option Issue)
    (hkey : ∀ k i, backend k = some i → i.key = k) :
    ∀ (chunks : List (List String)) (l0 : List String),
      (l0 ++ chunks.flatten).Nodup →
      chunks.foldl (fun m c => mergeChunkResults m (fetchChunkIssues backend c))
          (tgtMap backend l0)
        = tgtMap backend (l0 ++ chunks.flatten) := by
  intro chunks
  induction chunks with
  | nil =>
      intro l0 h
      simp
  | cons c cs ih =>
      intro l0 h
      rw [List.foldl_cons]
      have hdisj : ∀ x ∈ c, x ∉ l0 := by
        rw [List.flatten_cons] at h
        intro x hxc hxl
        exact List.disjoint_of_nodup_append h hxl (List.mem_append_left _ hxc)
      have hstep : mergeChunkResults (tgtMap backend l0) (fetchChunkIssues backend c)
          = tgtMap backend (l0 ++ c) := by
        rw [mergeChunk_eval backend hkey c]
        funext k
        by_cases hkc : k ∈ c
        · cases hbk : backend k with
          | none => simp [tgtMap, hkc, hbk, hdisj k hkc]
          | some i => simp [tgtMap, hkc, hbk]
        · simp [tgtMap, hkc]
      rw [hstep]
      have h2 := ih (l0 ++ c) (by
        rw [List.flatten_cons] at h
        rwa [List.append_assoc])
      rw [h2, List.flatten_cons, List.append_assoc]

theorem bulkFromChunks_eq_tgt (backend : String → Option Issue)
    (hkey : ∀ k i, backend k = some i → i.key = k)
    (chunks : List (List String)) (h : chunks.flatten.Nodup) :
    bulkFromChunks backend chunks = tgtMap backend chunks.flatten := by
  have h0 : (fun _ : String => (none : Option Issue)) = tgtMap backend [] := by
    funext k
    simp [tgtMap]
  rw [bulkFromChunks, h0, bulkFromChunks_eval backend hkey chunks [] (by simpa using h)]
  simp

theorem perm_flatten {α : Type} {l1 l2 : List (List α)} (h : l1.Perm l2) :
    l1.flatten.Perm l2.flatten := by
  induction h with
  | nil => rfl
  | cons x h ih => simpa [List.flatten_cons] using ih.append_left x
  | swap x y l =>
      simp only [List.flatten_cons]
      rw [← List.append_assoc, ← List.append_assoc]
      exact List.perm_append_comm.append_right _
  | trans h1 h2 ih1 ih2 => exact ih1.trans ih2

/-- Claim C2: over a fixed backend mapping, merging the chunk results in any
completion order (any permutation of the chunk list, which covers both the
sequential dispatch and the threaded as_completed order) produces the same
identifier-to-record mapping; and the sequential entry point is exactly the
fold over the chunk partition of the key list. -/
theorem c2_bulk_merge_order_independent (backend : String → Option Issue)
    (hkey : ∀ k i, backend k = some i → i.key = k)
    (keys : List String) (size : Nat) (hnd : keys.Nodup)
    (chunks' : List (List String)) (hperm : chunks'.Perm (chunked keys size)) :
    bulkFromChunks backend chunks' = bulkFromChunks backend (chunked keys size)
    ∧ bulk_fetch_issues_by_keys backend keys
        = bulkFromChunks backend (chunked keys CHUNK_SIZE) := by
  refine ⟨?_, rfl⟩
  have hjoin : (chunked keys size).flatten = keys := chunked_flatten keys size
  have hpj : chunks'.flatten.Perm keys := by
    rw [← hjoin]
    exact perm_flatten hperm
  have hnd' : chunks'.flatten.Nodup := hpj.nodup_iff.2 hnd
  rw [bulkFromChunks_eq_tgt backend hkey chunks' hnd',
    bulkFromChunks_eq_tgt backend hkey _ (by rw [hjoin]; exact hnd)]
  funext k
  simp only [tgtMap, hjoin]
  by_cases hk : k ∈ keys
  · rw [if_pos hk, if_pos (hpj.mem_iff.2 hk)]
  · rw [if_neg hk, if_neg (fun hx => hk (hpj.mem_iff.1 hx))]

def c2Backend : String → Option Issue := fun k => some ⟨k, none⟩

/-- Witness for C2: three keys, chunk size two, with the two chunks merged
in the reversed completion order. -/
theorem c2_bulk_merge_order_independent_witness :
    bulkFromChunks c2Backend [["C"], ["A", "B"]]
      = bulkFromChunks c2Backend (chunked ["A", "B", "C"] 2)
    ∧ bulk_fetch_issues_by_keys c2Backend ["A", "B", "C"]
      = bulkFromChunks c2Backend (chunked ["A", "B", "C"] CHUNK_SIZE) := by
  have hperm : ([["C"], ["A", "B"]] : List (List String)).Perm
      (chunked ["A", "B", "C"] 2) := by
    have hc : chunked ["A", "B", "C"] 2 = [["A", "B"], ["C"]] := by decide
    rw [hc]
    exact List.Perm.swap _ _ _
  exact c2_bulk_merge_order_independent c2Backend
    (fun k i h => by injection h with h2; rw [← h2]) ["A", "B", "C"] 2 (by decide)
    [["C"], ["A", "B"]] hperm

end TCT
